import Mathlib

/-!
Verification of the GovChat-NL policy-scanner repository against its
natural-language specification.  The data model and the operations below are
shallow embeddings of the repository's code: the TypeScript frontend stores
and API wrappers (`src/lib/stores/policySearch.ts`, the policy documents
store, the pagination component, `src/lib/apis/policy.ts`) and the Python
scraper snippets contained in the repository's architecture documents.
Components of the acquisition pipeline whose implementation files are not
part of the repository snapshot (the deduplication gate, the job
orchestrator's counters, the document processor) are modelled from the
specification; each such definition says so in its doc comment.
-/

namespace GovChat

/-! ## Data model of the search frontend (policySearch.ts) -/

/-- Search filters, from the `SearchFilters` interface in
`src/lib/stores/policySearch.ts`. -/
structure SearchFilters where
  sources : Option (List String) := none
  municipalities : Option (List String) := none
  categories : Option (List String) := none
  date_from : Option String := none
  date_to : Option String := none
  document_type : Option String := none
deriving DecidableEq, Repr

/-- One facet bucket, from the `SearchFacet` interface. -/
structure SearchFacet where
  value : String
  count : Int
deriving DecidableEq, Repr

/-- Facet sets, from the `SearchFacets` interface. -/
structure SearchFacets where
  sources : List SearchFacet
  municipalities : List SearchFacet
  categories : List SearchFacet
deriving DecidableEq, Repr

/-- A policy document, from the `PolicyDocument` interface in
`src/lib/stores/policySearch.ts`.  TypeScript `Date | string | null` fields
are modelled as optional strings and JSON metadata as an association list of
strings. -/
structure PolicyDocument where
  id : String
  source_id : String
  external_id : Option String := none
  title : String
  description : Option String := none
  content_hash : String
  document_url : String
  document_type : Option String := none
  municipality : Option String := none
  publication_date : Option String := none
  effective_date : Option String := none
  file_size : Option Int := none
  page_count : Option Int := none
  language : Option String := none
  status : String
  metadata : Option (List (String × String)) := none
  created_at : Int
  updated_at : Int
  indexed_at : Option Int := none
deriving DecidableEq, Repr

/-- The search store state, from the `SearchState` interface. -/
structure SearchState where
  query : String
  filters : SearchFilters
  results : List PolicyDocument
  total : Int
  page : Int
  loading : Bool
  error : Option String
  facets : SearchFacets
  took_ms : Int
deriving DecidableEq, Repr

/-- The response of the search API, from the `SearchResponse` interface in
`src/lib/apis/policy.ts` (the fields consumed by the store). -/
structure SearchResponse where
  results : List PolicyDocument
  total : Int
  facets : SearchFacets
  page : Int
  took_ms : Int
deriving DecidableEq, Repr

/-- The message stored on a failed search: `error.message || 'Search failed'`.
A JavaScript exception may carry no usable message (`none`) or an empty
message; both are falsy and fall back to the literal. -/
def failMessage (m : Option String) : String :=
  match m with
  | some str => if str = "" then "Search failed" else str
  | none => "Search failed"

/-- Shallow embedding of `policySearchStore.search` from
`src/lib/stores/policySearch.ts`.  The store first records the new query,
filters and page with `loading := true` and `error := none`; the awaited API
call is modelled by `outcome` (`Except.error m` when `searchPolicyDocuments`
rejects with message `m`); the second update applies the success or failure
branch. -/
def searchStep (s : SearchState) (query : String) (filters : SearchFilters)
    (page : Int) (outcome : Except (Option String) SearchResponse) : SearchState :=
  let s1 : SearchState :=
    { s with loading := true, error := none,
             query := query, filters := filters, page := page }
  match outcome with
  | .ok resp =>
      { s1 with results := resp.results, total := resp.total,
                facets := resp.facets, took_ms := resp.took_ms,
                loading := false }
  | .error m =>
      { s1 with loading := false, error := some (failMessage m) }

/-! ## Data model of the documents store (policy documents store) -/

/-- The documents store state, from the `DocumentsState` interface of the
policy documents store.  The TypeScript `Record<string, PolicyDocument>`
cache is modelled as an association list. -/
structure DocumentsState where
  documents : List (String × PolicyDocument)
  favorites : List String
  loading : Bool
  error : Option String
deriving DecidableEq, Repr

/-- Shallow embedding of the state update applied by
`policyDocumentsStore.addFavorite` when the API call resolves: the store
spreads the previous state and sets `favorites := [...state.favorites,
documentId]`.  On rejection the store performs no update, so the failure
path is the identity on the state. -/
def addFavoriteOk (s : DocumentsState) (documentId : String) : DocumentsState :=
  { s with favorites := s.favorites ++ [documentId] }

/-- Shallow embedding of the state update applied by
`policyDocumentsStore.removeFavorite` when the API call resolves:
`favorites := state.favorites.filter((id) => id !== documentId)`. -/
def removeFavoriteOk (s : DocumentsState) (documentId : String) : DocumentsState :=
  { s with favorites := s.favorites.filter (fun id => id != documentId) }

/-! ## The fetch layer of the frontend API (`handleResponse` in
`src/lib/apis/policy.ts`) -/

/-- The parsed JSON body of a response; `detail` is the optional string
field consulted by `handleResponse`, `raw` stands for the rest of the parsed
value. -/
structure JsonBody where
  detail : Option String
  raw : String
deriving DecidableEq, Repr

/-- An HTTP response as observed by `handleResponse`: its status code, its
status text and the result of parsing its body as JSON (`none` when
`response.json()` rejects because the body is not valid JSON). -/
structure WebResponse where
  status : Nat
  statusText : String
  json : Option JsonBody
deriving DecidableEq, Repr

/-- The WHATWG `Response.ok` flag: status in the range 200..299. -/
def WebResponse.ok (r : WebResponse) : Bool :=
  200 ≤ r.status && r.status ≤ 299

/-- Errors surfaced by `handleResponse`: the thrown
`new Error(error.detail || ...)`, or the rejection of `response.json()` on
the success path. -/
inductive FetchErrorModel where
  | httpError (msg : String)
  | parseFailure
deriving DecidableEq, Repr

/-- Shallow embedding of `handleResponse` from `src/lib/apis/policy.ts`.
On a non-ok response the body is parsed (`.catch` substitutes
`{detail: response.statusText}` when parsing fails) and
`Error(error.detail || "HTTP {status}: {statusText}")` is thrown; the
JavaScript `||` treats a missing and an empty `detail` alike.  On an ok
response the parsed body is returned (the parse rejection propagates). -/
def handleResponse (r : WebResponse) : Except FetchErrorModel JsonBody :=
  if !r.ok then
    let errDetail : Option String :=
      match r.json with
      | some j => j.detail
      | none => some r.statusText
    let fallback : String :=
      "HTTP " ++ toString r.status ++ ": " ++ r.statusText
    .error (.httpError (match errDetail with
      | some d => if d = "" then fallback else d
      | none => fallback))
  else
    match r.json with
    | some j => .ok j
    | none => .error .parseFailure

/-! ## Deduplication Gate

The deduplication gate's implementation file is not part of the repository
snapshot; only the `documents` schema (`content_hash`, unique on
`(source_id, external_id)`) and the specification describe it.  It is
modelled from the spec below. -/

/-- The dedup decision, from the spec's `DedupDecision` type. -/
inductive DedupDecision where
  | isNew
  | isUpdated
  | isUnchanged
deriving DecidableEq, Repr

/-- The persistent store of recorded fingerprints, keyed by
`(sourceID, externalID)` as in the `documents` table. -/
abbrev FingerprintStore : Type := List ((String × String) × String)

/-- Modelled from the spec: the persistent store contract
`getLastFingerprint(sourceID, externalID)` — the last stored fingerprint for
the pair, if any. -/
def getLastFingerprint (store : FingerprintStore) (sourceID externalID : String) :
    Option String :=
  (store.find? (fun e => e.1 == (sourceID, externalID))).map (fun e => e.2)

namespace Dedup

/-- Modelled from the spec: the Deduplication Gate's
`decide(sourceID, externalID, fingerprint)`.  No stored record gives `new`;
a stored record with a different fingerprint gives `updated`; an identical
fingerprint gives `unchanged`. -/
def decide (store : FingerprintStore) (sourceID externalID fingerprint : String) :
    DedupDecision :=
  match getLastFingerprint store sourceID externalID with
  | none => .isNew
  | some fp => if fp = fingerprint then .isUnchanged else .isUpdated

end Dedup

/-- An index write issued to the search service (`upsert` in the spec's
search-index contract). -/
inductive IndexAction where
  | insertDoc (sourceID externalID fingerprint : String)
  | updateDoc (sourceID externalID fingerprint : String)
deriving DecidableEq, Repr

/-- Modelled from the spec: the index writes produced for one candidate
after the dedup decision — an insert for `new`, an update for `updated`,
and no write at all for `unchanged` (indexing is skipped entirely). -/
def indexWrites (store : FingerprintStore) (sourceID externalID fingerprint : String) :
    List IndexAction :=
  match Dedup.decide store sourceID externalID fingerprint with
  | .isNew => [.insertDoc sourceID externalID fingerprint]
  | .isUpdated => [.updateDoc sourceID externalID fingerprint]
  | .isUnchanged => []

/-- Modelled from the spec: the persistent store contract
`recordDocument(...)` — after a scan processes a candidate, its fingerprint
is the last one stored for the `(sourceID, externalID)` pair. -/
def recordDocument (store : FingerprintStore) (sourceID externalID fingerprint : String) :
    FingerprintStore :=
  ((sourceID, externalID), fingerprint) :: store

/-! ## Job Orchestrator counters

The job orchestrator's implementation file is not part of the repository
snapshot; the `scan_jobs` schema holds the counters `documents_found`,
`documents_new`, `documents_updated`, `documents_failed`, and the spec adds
the `unchanged` count to the invariant.  The incremental counter updates are
modelled from the spec. -/

/-- The disposition of one processed candidate. -/
inductive CandidateOutcome where
  | outNew
  | outUpdated
  | outUnchanged
  | outFailed
deriving DecidableEq, Repr

/-- The document counters of a `ScanJob` record, from the `scan_jobs`
schema, together with the unchanged count named by the spec's invariant. -/
structure JobCounts where
  documents_found : Nat
  documents_new : Nat
  documents_updated : Nat
  documents_unchanged : Nat
  documents_failed : Nat
deriving DecidableEq, Repr

/-- The counters of a freshly created job (schema defaults are all 0). -/
def JobCounts.initial : JobCounts :=
  ⟨0, 0, 0, 0, 0⟩

/-- Modelled from the spec: the Job Orchestrator updates the job statistics
incrementally as each candidate is processed — `documents_found` and exactly
one disposition counter grow by one per candidate. -/
def processOutcome (c : JobCounts) (o : CandidateOutcome) : JobCounts :=
  match o with
  | .outNew => { c with documents_found := c.documents_found + 1,
                        documents_new := c.documents_new + 1 }
  | .outUpdated => { c with documents_found := c.documents_found + 1,
                            documents_updated := c.documents_updated + 1 }
  | .outUnchanged => { c with documents_found := c.documents_found + 1,
                              documents_unchanged := c.documents_unchanged + 1 }
  | .outFailed => { c with documents_found := c.documents_found + 1,
                           documents_failed := c.documents_failed + 1 }

/-- The counters after processing a sequence of candidate outcomes, starting
from a fresh job.  An observable point during the run is the state after
some prefix of the outcomes. -/
def runCounts (outcomes : List CandidateOutcome) : JobCounts :=
  outcomes.foldl processOutcome JobCounts.initial

/-- The spec's ScanJob invariant
`found = new + updated + unchanged + failed`. -/
def countsInvariant (c : JobCounts) : Prop :=
  c.documents_found =
    c.documents_new + c.documents_updated + c.documents_unchanged + c.documents_failed

/-! ## Content Processor

The `DocumentProcessor` service file is not part of the repository snapshot;
the implementation summary documents it (PDF/HTML/DOCX extraction, 10K-char
chunking, SHA-256 content hashing, summary generation) and the spec gives
its contract.  It is modelled from the spec below. -/

/-- Raw byte content of a known format, modelled in pre-parsed shape: a PDF
is its per-page extractable text, an HTML document its markup, a DOCX its
paragraphs in order, and `blob` an unrecognized format. -/
inductive RawContent where
  | pdf (pages : List String)
  | html (markup : String)
  | docx (paragraphs : List String)
  | blob (data : String)
deriving DecidableEq, Repr

/-- Processing errors from the spec's contract: a scanned image-only PDF
yields a specific no-extractable-text error, an unrecognized type fails
fast. -/
inductive ProcessingError where
  | noExtractableText
  | unsupportedType
deriving DecidableEq, Repr

/-- Modelled from the spec: HTML extraction strips markup keeping readable
text order — characters between `<` and `>` are removed. -/
def stripTags (s : String) : String :=
  let step := fun (acc : String × Bool) (c : Char) =>
    if acc.2 then
      if c = '>' then (acc.1, false) else acc
    else
      if c = '<' then (acc.1, true) else (acc.1.push c, false)
  (s.toList.foldl step ("", false)).1

/-- Modelled from the spec: text normalization — runs of whitespace collapse
to single spaces and outer whitespace is dropped, so differently formatted
but textually identical content normalizes identically. -/
def normalizeText (s : String) : String :=
  " ".intercalate ((s.split (fun c => c.isWhitespace)).filter (fun w => w ≠ ""))

/-- Modelled from the spec: extraction of plain text from raw content of a
declared type.  PDF pages are concatenated and zero extractable characters
are a `noExtractableText` error; DOCX paragraphs are joined in document
order; an unrecognized type is an `unsupportedType` error. -/
def extractText (raw : RawContent) : Except ProcessingError String :=
  match raw with
  | .pdf pages =>
      let t := String.join pages
      if t = "" then .error .noExtractableText else .ok t
  | .html markup => .ok (stripTags markup)
  | .docx paragraphs => .ok ("\n".intercalate paragraphs)
  | .blob _ => .error .unsupportedType

/-- Splits a character list into chunks of at most `n` characters. -/
def chunkChars (n : Nat) (cs : List Char) : List (List Char) :=
  if h0 : cs = [] then []
  else if h : n = 0 then [cs]
  else cs.take n :: chunkChars n (cs.drop n)
termination_by cs.length
decreasing_by
  simp only [List.length_drop]
  have hl : 0 < cs.length := List.length_pos.mpr h0
  omega

/-- Modelled from the spec: chunking splits normalized text into
bounded-size segments (the word-boundary preference is a non-safety
heuristic and is not modelled). -/
def chunkText (n : Nat) (s : String) : List String :=
  (chunkChars n s.toList).map (fun cs => String.mk cs)

/-- Modelled from the spec: the content fingerprint is a cryptographic hash
(SHA-256 in the implementation) over the normalized extracted text; it is
modelled by a deterministic 64-bit fold over the characters, standing for
SHA-256. -/
def sha256Model (s : String) : Nat :=
  s.toList.foldl (fun h c => (h * 1315423911 + c.toNat) % 2 ^ 64) 5381

/-- Modelled from the spec: the word count of the normalized text. -/
def countWords (s : String) : Nat :=
  ((s.split (fun c => c.isWhitespace)).filter (fun w => w ≠ "")).length

/-- A processed document, from the spec's `ProcessedDocument`: normalized
text in bounded chunks, a content fingerprint over the normalized text, a
word count and a short summary. -/
structure ProcessedDocument where
  text : String
  chunks : List String
  fingerprint : Nat
  word_count : Nat
  summary : String
deriving DecidableEq, Repr

/-- The chunk size documented for the processor (10,000 characters). -/
def chunkSize : Nat := 10000

/-- Modelled from the spec: `process(rawBytes, declaredType)` — extract,
normalize, chunk, fingerprint and summarize, or fail with a processing
error. -/
def process (raw : RawContent) : Except ProcessingError ProcessedDocument :=
  match extractText raw with
  | .error e => .error e
  | .ok t =>
      let n := normalizeText t
      .ok { text := n
            chunks := chunkText chunkSize n
            fingerprint := sha256Model n
            word_count := countWords n
            summary := String.mk (n.toList.take 200) }

/-- The fingerprint of a processing result, when it succeeded. -/
def fingerprintOf (r : Except ProcessingError ProcessedDocument) : Option Nat :=
  r.toOption.map (fun d => d.fingerprint)

/-! ## Source plugin discovery parsing
(`GemeentebladScraper._parse_search_results`, policy-scanner-architecture.md) -/

/-- A url element matched by the url selector: its `href` attribute may be
absent, in which case the source's subscript access `url_elem['href']`
raises `KeyError`. -/
structure UrlElem where
  href : Option String
deriving DecidableEq, Repr

/-- One listing item of a discovery page, as seen after the CSS selectors of
the source configuration ran: the optional title, url and date elements
(`select_one` returns nothing on malformed item markup); the title and date
elements are consumed through their always-present `text`, the url element
through its possibly-missing `href` attribute. -/
structure ListingItem where
  titleElem : Option String
  urlElem : Option UrlElem
  dateElem : Option String
deriving DecidableEq, Repr

/-- The exception aborting `_parse_search_results`: the `KeyError` raised by
`url_elem['href']` on a url element without an `href` attribute. -/
inductive ParseAbort where
  | keyError
deriving DecidableEq, Repr

/-- Discovered document metadata, from the `DocumentMetadata` model in
policy-scanner-architecture.md. -/
structure DocumentMetadata where
  title : String
  url : String
  external_id : String
  publication_date : Option String
  municipality : Option String
  document_type : String
deriving DecidableEq, Repr

/-- The scraper context: the configuration fields and helper methods used by
`_parse_search_results` (`_extract_id`, `_parse_date`, `urljoin`), left
abstract since their bodies are not in the snippet. -/
structure ScraperCtx where
  baseUrl : String
  municipality : Option String
  extractId : String → String
  parseDate : Option String → Option String
  urljoin : String → String → String

/-- Shallow embedding of `GemeentebladScraper._parse_search_results`: items
are processed in listing order; an item lacking its title or url element
fails `if title_elem and url_elem` and is skipped; for an item with both,
`url_elem['href']` is read — a url element without an `href` attribute
raises `KeyError`, aborting the whole parse (the uncaught exception
propagates, discarding every already-collected document). -/
def parseSearchResults (ctx : ScraperCtx) :
    List ListingItem → Except ParseAbort (List DocumentMetadata)
  | [] => .ok []
  | item :: rest =>
      match item.titleElem, item.urlElem with
      | some t, some u =>
          match u.href with
          | none => .error .keyError
          | some href =>
              match parseSearchResults ctx rest with
              | .error e => .error e
              | .ok docs =>
                  .ok ({ title := t.trim
                         url := ctx.urljoin ctx.baseUrl href
                         external_id := ctx.extractId href
                         publication_date := ctx.parseDate item.dateElem
                         municipality := ctx.municipality
                         document_type := "pdf" } :: docs)
      | _, _ => parseSearchResults ctx rest

/-! ## Anti-bot retry loop
(`RobustScraper.scrape_with_retry` / `_is_blocked`, policy-scanner-architecture.md) -/

/-- The response seen by `RobustScraper`: its status code and the path of
its final URL (consulted by the CAPTCHA-redirect heuristic). -/
structure ScrapeResponse where
  status : Nat
  urlPath : String
deriving DecidableEq, Repr

/-- The outcome of one `_fetch` call: a response, or a raised
`aiohttp.ClientError`. -/
inductive FetchOutcome where
  | success (r : ScrapeResponse)
  | clientError
deriving DecidableEq, Repr

/-- Whether `needle` starts the character list. -/
def startsWithChars : List Char → List Char → Bool
  | [], _ => true
  | _ :: _, [] => false
  | p :: ps, c :: cs => p == c && startsWithChars ps cs

/-- Whether `needle` occurs as a contiguous run of the character list. -/
def hasSubChars (needle : List Char) : List Char → Bool
  | [] => startsWithChars needle []
  | c :: cs => startsWithChars needle (c :: cs) || hasSubChars needle cs

/-- Case-insensitive substring test, modelling Python's
`'captcha' in path.lower()`. -/
def containsCaptcha (p : String) : Bool :=
  hasSubChars "captcha".data (p.data.map Char.toLower)

/-- Shallow embedding of `RobustScraper._is_blocked`: status 403, status
429, or a CAPTCHA segment in the response URL's path. -/
def isBlocked (r : ScrapeResponse) : Bool :=
  if r.status = 403 then true
  else if r.status = 429 then true
  else if containsCaptcha r.urlPath then true
  else false

/-- The result of `scrape_with_retry`: a returned response, the implicit
`None` after the loop exhausts all attempts on blocked responses, or a
re-raised client error on the last attempt. -/
inductive ScrapeResult where
  | ok (r : ScrapeResponse)
  | exhausted
  | raised
deriving DecidableEq, Repr

/-- The loop body of `RobustScraper.scrape_with_retry`, instrumented with
the number of `_fetch` calls performed.  `fetch attempt` is the outcome of
the fetch on that attempt; `remaining` counts the iterations left of
`for attempt in range(max_retries)` (it equals `maxRetries - attempt`).  A
blocked response triggers `_handle_blocking` and `continue`; a client error
on the last attempt (`attempt == max_retries - 1`) re-raises, otherwise the
backoff wait precedes the next attempt. -/
def scrapeGo (fetch : Nat → FetchOutcome) (maxRetries : Nat) :
    Nat → Nat → ScrapeResult × Nat
  | 0, _ => (.exhausted, 0)
  | remaining + 1, attempt =>
      match fetch attempt with
      | .success r =>
          if isBlocked r then
            let p := scrapeGo fetch maxRetries remaining (attempt + 1)
            (p.1, p.2 + 1)
          else (.ok r, 1)
      | .clientError =>
          if attempt = maxRetries - 1 then (.raised, 1)
          else
            let p := scrapeGo fetch maxRetries remaining (attempt + 1)
            (p.1, p.2 + 1)

/-- Shallow embedding of `RobustScraper.scrape_with_retry(url, max_retries)`
together with the number of fetch attempts it performed. -/
def scrapeWithRetry (fetch : Nat → FetchOutcome) (maxRetries : Nat) :
    ScrapeResult × Nat :=
  scrapeGo fetch maxRetries maxRetries 0

/-- Whether a fetch outcome counts as blocked (a response `_is_blocked`
accepts; a raised client error is not a blocked response). -/
def blockedOutcome (o : FetchOutcome) : Bool :=
  match o with
  | .success r => isBlocked r
  | .clientError => false

/-! ## Discovery pagination
(`discover_documents` of the configurable scraper plugin,
docs/policy-scanner/README.md) -/

/-- The outcome of fetching and parsing one listing page: its parsed
documents, or a raised exception (caught by the loop, which logs and
breaks). -/
inductive PageFetch where
  | docs (l : List DocumentMetadata)
  | raiseErr
deriving DecidableEq, Repr

/-- The page-limit test `if max_pages and page > max_pages`: Python
truthiness makes both a missing and a zero `max_pages` skip the check. -/
def limitHit (maxPages : Option Nat) (page : Nat) : Bool :=
  match maxPages with
  | some m => m != 0 && page > m
  | none => false

/-- The documents contributed by a page fetch (an error contributes none). -/
def docsOf (pf : PageFetch) : List DocumentMetadata :=
  match pf with
  | .docs l => l
  | .raiseErr => []

/-- Shallow embedding of the `while True` pagination loop of
`discover_documents`, instrumented with the visited page numbers and run on
explicit fuel: `none` means the fuel ran out with the loop still going
(modelling non-termination).  Per iteration: the `max_pages` check breaks
before fetching; a raised fetch/parse error is logged and breaks; an empty
page breaks; otherwise the page's documents are collected and the loop
advances to the next page. -/
def discoverGo (pages : Nat → PageFetch) (maxPages : Option Nat) :
    Nat → Nat → Option (List Nat × List DocumentMetadata)
  | 0, _ => none
  | fuel + 1, page =>
      if limitHit maxPages page then some ([], [])
      else
        match pages page with
        | .raiseErr => some ([page], [])
        | .docs l =>
            if l = [] then some ([page], [])
            else
              match discoverGo pages maxPages fuel (page + 1) with
              | none => none
              | some (visited, collected) => some (page :: visited, l ++ collected)

/-! ## Pagination component (`getPageNumbers` in the pagination Svelte
component) -/

/-- An entry of the page-number strip: a page number or the `'...'`
ellipsis. -/
inductive PageEntry where
  | num (n : Int)
  | dots
deriving DecidableEq, Repr

/-- The integers collected by `for (let i = lo; i <= hi; i++)`, as a list of
`n` consecutive values starting at `lo`. -/
def intRangeAux (lo : Int) : Nat → List Int
  | 0 => []
  | n + 1 => lo :: intRangeAux (lo + 1) n

/-- The loop range `lo..hi` of `getPageNumbers` (empty when `hi < lo`). -/
def pageLoopRange (lo hi : Int) : List Int :=
  intRangeAux lo (hi + 1 - lo).toNat

/-- Shallow embedding of `getPageNumbers(current, total)` from the
pagination component: collect `max(2, current-delta) .. min(total-1,
current+delta)` with `delta = 2`, prepend `'...'` when `current - delta >
2`, append `'...'` when `current + delta < total - 1`, prepend page 1, and
append `total` when `total > 1`. -/
def getPageNumbers (current total : Int) : List PageEntry :=
  let delta : Int := 2
  let lo := max 2 (current - delta)
  let hi := min (total - 1) (current + delta)
  let range := (pageLoopRange lo hi).map PageEntry.num
  let range1 := if current - delta > 2 then PageEntry.dots :: range else range
  let range2 := if current + delta < total - 1 then range1 ++ [PageEntry.dots] else range1
  let range3 := PageEntry.num 1 :: range2
  if total > 1 then range3 ++ [PageEntry.num total] else range3

/-- The numeric entries of a page strip, in order. -/
def numsOf (l : List PageEntry) : List Int :=
  l.filterMap (fun e =>
    match e with
    | .num n => some n
    | .dots => none)

/-- Every `'...'` entry sits between two page numbers that are non-adjacent
(`a + 2 ≤ b`); an ellipsis at the start, at the end, or next to another
ellipsis violates the predicate. -/
def dotsSeparated : List PageEntry → Bool
  | .num a :: .dots :: .num b :: rest =>
      decide (a + 2 ≤ b) && dotsSeparated (.num b :: rest)
  | .num _ :: .num b :: rest => dotsSeparated (.num b :: rest)
  | [.num _] => true
  | [] => true
  | _ => false
termination_by l => l.length
decreasing_by
  all_goals simp only [List.length_cons]
  all_goals omega

/-! ## Theorems -/

/-- Claim C8: when the underlying API call of `policySearchStore.search`
fails, the resulting state keeps `results`, `total`, `facets` and `took_ms`
unchanged from the prior state, sets `loading` to false and `error` to the
failure message, while `query`, `filters` and `page` are set to the new
arguments. -/
theorem C8_search_error_atomicity (s : SearchState) (q : String)
    (f : SearchFilters) (p : Int) (m : Option String) :
    (searchStep s q f p (.error m)).results = s.results ∧
    (searchStep s q f p (.error m)).total = s.total ∧
    (searchStep s q f p (.error m)).facets = s.facets ∧
    (searchStep s q f p (.error m)).took_ms = s.took_ms ∧
    (searchStep s q f p (.error m)).loading = false ∧
    (searchStep s q f p (.error m)).error = some (failMessage m) ∧
    (searchStep s q f p (.error m)).query = q ∧
    (searchStep s q f p (.error m)).filters = f ∧
    (searchStep s q f p (.error m)).page = p :=
  ⟨rfl, rfl, rfl, rfl, rfl, rfl, rfl, rfl, rfl⟩

/-- Claim C9: after a successful `removeFavorite(id)` no occurrence of `id`
remains in the favorites list and the documents cache, `loading` and `error`
are unchanged; after a successful `addFavorite(id)` the favorites list is
the previous list with `id` appended (so a second `addFavorite` of the same
`id` produces a duplicate entry), with the documents cache unchanged. -/
theorem C9_favorites_frame (s : DocumentsState) (id : String) :
    id ∉ (removeFavoriteOk s id).favorites ∧
    (removeFavoriteOk s id).documents = s.documents ∧
    (removeFavoriteOk s id).loading = s.loading ∧
    (removeFavoriteOk s id).error = s.error ∧
    (addFavoriteOk s id).favorites = s.favorites ++ [id] ∧
    (addFavoriteOk s id).documents = s.documents ∧
    (addFavoriteOk s id).loading = s.loading ∧
    (addFavoriteOk s id).error = s.error ∧
    (addFavoriteOk (addFavoriteOk s id) id).favorites = s.favorites ++ [id, id] := by
  refine ⟨?_, rfl, rfl, rfl, rfl, rfl, rfl, rfl, ?_⟩
  · simp [removeFavoriteOk]
  · simp [addFavoriteOk]

/-- Claim C2: the `ScanJob` document counters, updated incrementally per
processed candidate, satisfy `documents_found = documents_new +
documents_updated + documents_unchanged + documents_failed` at every
observable point of the run — i.e. after every prefix of the candidate
outcome sequence (every list of outcomes is such a prefix). -/
theorem C2_counts_invariant (outcomes : List CandidateOutcome) :
    countsInvariant (runCounts outcomes) := by
  suffices h : ∀ c : JobCounts, countsInvariant c →
      countsInvariant (outcomes.foldl processOutcome c) from
    h JobCounts.initial rfl
  induction outcomes with
  | nil => intro c hc; exact hc
  | cons o rest ih =>
      intro c hc
      refine ih (processOutcome c o) ?_
      cases o <;> simp [processOutcome, countsInvariant] at hc ⊢ <;> omega

/-- Claim C1: the Deduplication Gate's `decide(sourceID, externalID,
fingerprint)` returns `new` when the store holds no record for the pair,
`updated` when the stored fingerprint differs, and `unchanged` when it is
identical — in which case no index write occurs; in particular a second scan
after the fingerprint was recorded decides `unchanged` and never invokes the
Index Writer for that document. -/
theorem C1_dedup_gate (store : FingerprintStore) (src ext fp : String) :
    (getLastFingerprint store src ext = none →
      Dedup.decide store src ext fp = .isNew) ∧
    (∀ stored, getLastFingerprint store src ext = some stored → stored ≠ fp →
      Dedup.decide store src ext fp = .isUpdated) ∧
    (getLastFingerprint store src ext = some fp →
      Dedup.decide store src ext fp = .isUnchanged ∧
      indexWrites store src ext fp = []) ∧
    (Dedup.decide (recordDocument store src ext fp) src ext fp = .isUnchanged ∧
      indexWrites (recordDocument store src ext fp) src ext fp = []) := by
  have hrec : getLastFingerprint (recordDocument store src ext fp) src ext = some fp := by
    simp [getLastFingerprint, recordDocument, List.find?]
  refine ⟨?_, ?_, ?_, ?_⟩
  · intro h; simp [Dedup.decide, h]
  · intro stored h hne; simp [Dedup.decide, h, hne]
  · intro h; constructor
    · simp [Dedup.decide, h]
    · simp [indexWrites, Dedup.decide, h]
  · constructor
    · simp [Dedup.decide, hrec]
    · simp [indexWrites, Dedup.decide, hrec]

/-- Witness for C1 at concrete inputs: the empty store decides `new`; a
store holding the identical fingerprint decides `unchanged` with no index
write. -/
theorem C1_dedup_gate_witness :
    (getLastFingerprint [] "src" "ext" = none ∧
      Dedup.decide [] "src" "ext" "fp" = .isNew) ∧
    (getLastFingerprint [(("src", "ext"), "fp")] "src" "ext" = some "fp" ∧
      Dedup.decide [(("src", "ext"), "fp")] "src" "ext" "fp" = .isUnchanged ∧
      indexWrites [(("src", "ext"), "fp")] "src" "ext" "fp" = []) := by
  have h1 : getLastFingerprint [] "src" "ext" = none := by decide
  have h2 : getLastFingerprint [(("src", "ext"), "fp")] "src" "ext" = some "fp" := by
    decide
  refine ⟨⟨h1, (C1_dedup_gate [] "src" "ext" "fp").1 h1⟩,
          h2, (C1_dedup_gate [(("src", "ext"), "fp")] "src" "ext" "fp").2.2.1 h2⟩

/-- Claim C4: the Content Processor's fingerprint is deterministic — two
invocations of `process` on the same raw content yield identical
fingerprints — and the fingerprint of a successful result is the hash over
the normalized extracted text. -/
theorem C4_fingerprint_deterministic (raw : RawContent) :
    fingerprintOf (process raw) = fingerprintOf (process raw) ∧
    ∀ d, process raw = .ok d →
      ∃ t, extractText raw = .ok t ∧ d.fingerprint = sha256Model (normalizeText t) := by
  refine ⟨rfl, ?_⟩
  intro d hd
  unfold process at hd
  cases hext : extractText raw with
  | error e => rw [hext] at hd; exact absurd hd (by simp)
  | ok t =>
      rw [hext] at hd
      simp only [Except.ok.injEq] at hd
      exact ⟨t, rfl, by rw [← hd]⟩

/-- Witness for C4 at a concrete HTML input: processing succeeds and the
produced fingerprint is the hash of the normalized extracted text. -/
theorem C4_fingerprint_witness :
    ∃ d, process (RawContent.html "<p>Hi</p>") = Except.ok d ∧
      ∃ t, extractText (RawContent.html "<p>Hi</p>") = Except.ok t ∧
        d.fingerprint = sha256Model (normalizeText t) :=
  ⟨_, rfl, (C4_fingerprint_deterministic (RawContent.html "<p>Hi</p>")).2 _ rfl⟩

theorem parseSearchResults_skip (ctx : ScraperCtx) (bad : ListingItem)
    (rest : List ListingItem) (h : bad.titleElem = none ∨ bad.urlElem = none) :
    parseSearchResults ctx (bad :: rest) = parseSearchResults ctx rest := by
  obtain ⟨bt, bu, bd⟩ := bad
  rcases h with h | h <;> simp only at h <;> subst h
  · rfl
  · cases bt <;> rfl

/-- Counterexample for C5: a page whose middle item has title and url
elements but a url element without an `href` attribute makes the whole
parse raise `KeyError` — no candidate of the page is returned — although
the same page without that item parses fine. -/
theorem C5_counterexample :
    parseSearchResults ⟨"b", none, fun u => u, fun d => d, fun a b => a ++ b⟩
        [⟨some "t1", some ⟨some "u1"⟩, none⟩, ⟨some "T", some ⟨none⟩, none⟩,
          ⟨some "t2", some ⟨some "u2"⟩, none⟩] = .error .keyError ∧
    ∃ l, parseSearchResults ⟨"b", none, fun u => u, fun d => d, fun a b => a ++ b⟩
        [⟨some "t1", some ⟨some "u1"⟩, none⟩, ⟨some "t2", some ⟨some "u2"⟩, none⟩] =
      .ok l :=
  ⟨rfl, _, rfl⟩

/-- Claim C5 as amended: an item missing its title or url element is merely
skipped — deleting it from the page leaves the parse of the other items
unchanged — but the parse aborts with `KeyError` exactly when some item has
both elements while its url element lacks the `href` attribute, so
per-candidate isolation holds only for missing-element failures, not for
every extraction failure. -/
theorem C5_candidate_isolation_amended (ctx : ScraperCtx) :
    (∀ pre post bad, (bad.titleElem = none ∨ bad.urlElem = none) →
        parseSearchResults ctx (pre ++ bad :: post) =
          parseSearchResults ctx (pre ++ post)) ∧
    (∀ items, parseSearchResults ctx items = .error .keyError ↔
        ∃ item ∈ items, ∃ u, item.titleElem ≠ none ∧ item.urlElem = some u ∧
          u.href = none) := by
  constructor
  · intro pre post bad h
    induction pre with
    | nil => exact parseSearchResults_skip ctx bad post h
    | cons p pre' ih =>
        obtain ⟨pt, pu, pd⟩ := p
        cases pt with
        | none =>
            rw [List.cons_append, List.cons_append,
              parseSearchResults_skip ctx ⟨none, pu, pd⟩ _ (Or.inl rfl),
              parseSearchResults_skip ctx ⟨none, pu, pd⟩ _ (Or.inl rfl)]
            exact ih
        | some t0 =>
            cases pu with
            | none =>
                rw [List.cons_append, List.cons_append,
                  parseSearchResults_skip ctx ⟨some t0, none, pd⟩ _ (Or.inr rfl),
                  parseSearchResults_skip ctx ⟨some t0, none, pd⟩ _ (Or.inr rfl)]
                exact ih
            | some u0 =>
                cases hh : u0.href with
                | none => simp only [List.cons_append, parseSearchResults, hh]
                | some href =>
                    simp only [List.cons_append, parseSearchResults, hh]
                    have ih' : parseSearchResults ctx (pre'.append (bad :: post)) =
                        parseSearchResults ctx (pre'.append post) := ih
                    rw [ih']
  · intro items
    induction items with
    | nil => simp [parseSearchResults]
    | cons item rest ih =>
        obtain ⟨it, iu, idate⟩ := item
        cases it with
        | none =>
            rw [parseSearchResults_skip ctx ⟨none, iu, idate⟩ rest (Or.inl rfl), ih]
            constructor
            · rintro ⟨x, hx, hp⟩
              exact ⟨x, List.mem_cons_of_mem _ hx, hp⟩
            · rintro ⟨x, hx, u, hxt, hxu, hhr⟩
              rcases List.mem_cons.mp hx with rfl | hx
              · simp at hxt
              · exact ⟨x, hx, u, hxt, hxu, hhr⟩
        | some t0 =>
            cases iu with
            | none =>
                rw [parseSearchResults_skip ctx ⟨some t0, none, idate⟩ rest (Or.inr rfl),
                  ih]
                constructor
                · rintro ⟨x, hx, hp⟩
                  exact ⟨x, List.mem_cons_of_mem _ hx, hp⟩
                · rintro ⟨x, hx, u, hxt, hxu, hhr⟩
                  rcases List.mem_cons.mp hx with rfl | hx
                  · simp at hxu
                  · exact ⟨x, hx, u, hxt, hxu, hhr⟩
            | some u0 =>
                cases hh : u0.href with
                | none =>
                    simp only [parseSearchResults, hh]
                    constructor
                    · intro _
                      exact ⟨⟨some t0, some u0, idate⟩, List.mem_cons_self _ _, u0,
                        by simp, rfl, hh⟩
                    · intro _
                      trivial
                | some href =>
                    cases hp : parseSearchResults ctx rest with
                    | error e =>
                        cases e
                        simp only [parseSearchResults, hh, hp]
                        constructor
                        · intro _
                          obtain ⟨x, hx, hpp⟩ := ih.mp hp
                          exact ⟨x, List.mem_cons_of_mem _ hx, hpp⟩
                        · intro _
                          trivial
                    | ok docs =>
                        simp only [parseSearchResults, hh, hp]
                        constructor
                        · intro hcon
                          cases hcon
                        · rintro ⟨x, hx, u, hxt, hxu, hhr⟩
                          rcases List.mem_cons.mp hx with rfl | hx
                          · simp only [Option.some.injEq] at hxu
                            subst hxu
                            rw [hh] at hhr
                            cases hhr
                          · have := ih.mpr ⟨x, hx, u, hxt, hxu, hhr⟩
                            rw [hp] at this
                            cases this

/-- Witness for C5 at a concrete page: a middle item missing its title is
skipped leaving the rest of the parse unchanged, and a page containing an
item whose url element lacks `href` parses to the `KeyError` abort. -/
theorem C5_candidate_isolation_witness :
    ((ListingItem.mk none (some ⟨some "u"⟩) none).titleElem = none ∨
      (ListingItem.mk none (some ⟨some "u"⟩) none).urlElem = none) ∧
    parseSearchResults ⟨"b", none, fun u => u, fun d => d, fun a b => a ++ b⟩
        ([⟨some "t1", some ⟨some "u1"⟩, none⟩] ++
          ListingItem.mk none (some ⟨some "u"⟩) none ::
            [⟨some "t2", some ⟨some "u2"⟩, none⟩]) =
      parseSearchResults ⟨"b", none, fun u => u, fun d => d, fun a b => a ++ b⟩
        ([⟨some "t1", some ⟨some "u1"⟩, none⟩] ++ [⟨some "t2", some ⟨some "u2"⟩, none⟩]) ∧
    parseSearchResults ⟨"b", none, fun u => u, fun d => d, fun a b => a ++ b⟩
        [⟨some "T", some ⟨none⟩, none⟩] = .error .keyError := by
  refine ⟨Or.inl rfl, ?_, ?_⟩
  · exact (C5_candidate_isolation_amended
      ⟨"b", none, fun u => u, fun d => d, fun a b => a ++ b⟩).1
      [⟨some "t1", some ⟨some "u1"⟩, none⟩] [⟨some "t2", some ⟨some "u2"⟩, none⟩]
      (ListingItem.mk none (some ⟨some "u"⟩) none) (Or.inl rfl)
  · exact (C5_candidate_isolation_amended
      ⟨"b", none, fun u => u, fun d => d, fun a b => a ++ b⟩).2
      [⟨some "T", some ⟨none⟩, none⟩] |>.mpr
      ⟨⟨some "T", some ⟨none⟩, none⟩, List.mem_cons_self _ _, ⟨none⟩,
        by simp, rfl, rfl⟩

/-- Counterexample for C7: a blocked-class 403 response and a generic 500
failure carrying the same `detail` produce the very same error from
`handleResponse` — the raised error does not distinguish a blocked response
from a generic HTTP failure. -/
theorem C7_counterexample :
    handleResponse ⟨403, "Forbidden", some ⟨some "quota exceeded", "b1"⟩⟩ =
      handleResponse ⟨500, "Internal Server Error", some ⟨some "quota exceeded", "b2"⟩⟩ ∧
    (403 : Nat) ≠ 500 := by
  refine ⟨?_, by decide⟩
  rfl

/-- Claim C7 as amended: `handleResponse` returns the parsed payload exactly
on a 2xx response with a parsable JSON body, raises a structured HTTP error
on every non-2xx response, and that error carries only a message (the
server-provided detail or a generic `HTTP {status}` text) with no
blocked/generic classification. -/
theorem C7_fetch_error_amended (r : WebResponse) :
    ((∃ j, handleResponse r = .ok j) ↔
      (200 ≤ r.status ∧ r.status ≤ 299 ∧ ∃ j, r.json = some j)) ∧
    (¬ (200 ≤ r.status ∧ r.status ≤ 299) →
      ∃ m, handleResponse r = .error (.httpError m)) ∧
    (∀ j, r.json = some j → 200 ≤ r.status → r.status ≤ 299 →
      handleResponse r = .ok j) := by
  have hok : (r.ok = true) ↔ (200 ≤ r.status ∧ r.status ≤ 299) := by
    simp [WebResponse.ok]
  by_cases h2 : 200 ≤ r.status ∧ r.status ≤ 299
  · have hb : r.ok = true := hok.mpr h2
    refine ⟨?_, fun hc => absurd h2 hc, ?_⟩
    · cases hj : r.json with
      | none => simp [handleResponse, hb, hj, h2]
      | some j => simp [handleResponse, hb, hj, h2]
    · intro j hj _ _
      simp [handleResponse, hb, hj]
  · have hb : r.ok = false := by
      cases hcase : r.ok with
      | false => rfl
      | true => exact absurd (hok.mp hcase) h2
    have herr : ∃ m, handleResponse r = .error (.httpError m) := by
      unfold handleResponse
      rw [hb]
      exact ⟨_, rfl⟩
    obtain ⟨m, hm⟩ := herr
    refine ⟨?_, fun _ => ⟨m, hm⟩, ?_⟩
    · constructor
      · rintro ⟨j, hj⟩
        rw [hm] at hj
        cases hj
      · rintro ⟨hlo, hhi, -⟩
        exact absurd ⟨hlo, hhi⟩ h2
    · intro j hj hlo hhi
      exact absurd ⟨hlo, hhi⟩ h2

/-- Witness for C7 at concrete responses: a 204 with a JSON body returns the
parsed payload, a 404 raises a structured HTTP error. -/
theorem C7_fetch_error_witness :
    handleResponse ⟨204, "No Content", some ⟨none, "x"⟩⟩ = .ok ⟨none, "x"⟩ ∧
    ∃ m, handleResponse ⟨404, "Not Found", none⟩ = .error (.httpError m) :=
  ⟨(C7_fetch_error_amended ⟨204, "No Content", some ⟨none, "x"⟩⟩).2.2
      ⟨none, "x"⟩ rfl (by decide) (by decide),
    (C7_fetch_error_amended ⟨404, "Not Found", none⟩).2.1 (by decide)⟩

/-- Counterexample for C3, refuting both halves of the claimed
classification: on a source answering 403 (fatal per the claim) on every
attempt, `scrape_with_retry` with the default `max_retries = 3` performs 3
fetch attempts and falls off the loop instead of propagating immediately
after the first attempt; and a 500 response (transient per the claim, to be
retried) is returned as a success on the very first attempt with no retry,
since `_is_blocked` checks only 403/429/CAPTCHA. -/
theorem C3_counterexample :
    (scrapeWithRetry (fun _ => .success ⟨403, "path"⟩) 3 = (.exhausted, 3) ∧
      (3 : Nat) ≠ 1) ∧
    scrapeWithRetry (fun _ => .success ⟨500, "path"⟩) 3 = (.ok ⟨500, "path"⟩, 1) := by
  refine ⟨⟨?_, by decide⟩, ?_⟩ <;> rfl

theorem scrapeGo_attempts_le (fetch : Nat → FetchOutcome) (maxRetries : Nat) :
    ∀ rem att, (scrapeGo fetch maxRetries rem att).2 ≤ rem := by
  intro rem
  induction rem with
  | zero => intro att; simp [scrapeGo]
  | succ n ih =>
      intro att
      simp only [scrapeGo]
      cases fetch att with
      | success r =>
          cases hb : isBlocked r with
          | true => simpa [hb] using Nat.succ_le_succ (ih (att + 1))
          | false => simp [hb]
      | clientError =>
          by_cases ha : att = maxRetries - 1
          · simp [ha]
          · simpa [ha] using Nat.succ_le_succ (ih (att + 1))

theorem scrapeGo_ok_not_blocked (fetch : Nat → FetchOutcome) (maxRetries : Nat) :
    ∀ rem att r, (scrapeGo fetch maxRetries rem att).1 = .ok r →
      isBlocked r = false := by
  intro rem
  induction rem with
  | zero => intro att r h; simp [scrapeGo] at h
  | succ n ih =>
      intro att r h
      simp only [scrapeGo] at h
      cases hf : fetch att with
      | success r0 =>
          simp only [hf] at h
          cases hb : isBlocked r0 with
          | true => simp only [hb, if_true] at h; exact ih (att + 1) r h
          | false =>
              simp only [hb] at h
              simp at h
              exact h ▸ hb
      | clientError =>
          simp only [hf] at h
          by_cases ha : att = maxRetries - 1
          · simp [ha] at h
          · simp [ha] at h
            exact ih (att + 1) r h

theorem scrapeGo_all_blocked (fetch : Nat → FetchOutcome) (maxRetries : Nat)
    (hbl : ∀ n, blockedOutcome (fetch n) = true) :
    ∀ rem att, scrapeGo fetch maxRetries rem att = (.exhausted, rem) := by
  intro rem
  induction rem with
  | zero => intro att; simp [scrapeGo]
  | succ n ih =>
      intro att
      have hthis := hbl att
      simp only [scrapeGo]
      cases hf : fetch att with
      | success r0 =>
          rw [hf] at hthis
          simp only [blockedOutcome] at hthis
          simp [hthis, ih (att + 1)]
      | clientError =>
          rw [hf] at hthis
          simp [blockedOutcome] at hthis

theorem scrapeGo_all_clientError (fetch : Nat → FetchOutcome) (maxRetries : Nat)
    (hcl : ∀ n, fetch n = .clientError) :
    ∀ rem att, rem + att = maxRetries → 0 < rem →
      scrapeGo fetch maxRetries rem att = (.raised, rem) := by
  intro rem
  induction rem with
  | zero => intro att hsum hpos; omega
  | succ n ih =>
      intro att hsum hpos
      simp only [scrapeGo, hcl att]
      by_cases ha : att = maxRetries - 1
      · have hn : n = 0 := by omega
        subst hn
        simp [ha]
      · have hn : 0 < n := by omega
        rw [if_neg ha, ih (att + 1) (by omega) hn]

theorem scrapeGo_first_success (fetch : Nat → FetchOutcome) (maxRetries : Nat)
    (r : ScrapeResponse) (hf : fetch 0 = .success r) (hnb : isBlocked r = false)
    (hpos : 0 < maxRetries) :
    scrapeWithRetry fetch maxRetries = (.ok r, 1) := by
  obtain ⟨m, rfl⟩ : ∃ m, maxRetries = m + 1 := ⟨maxRetries - 1, by omega⟩
  simp [scrapeWithRetry, scrapeGo, hf, hnb]

/-- Claim C3 as amended: the total number of fetch attempts of
`scrape_with_retry` is bounded by the configured maximum (default 3) for
every failure pattern; a blocked response (403/429/CAPTCHA heuristics) is
never returned but is retried with anti-bot handling up to the maximum
rather than propagated immediately, exhausting all attempts on blocked
responses surfaces no response, a client error on the final attempt is
re-raised (after the bounded earlier retries), and any non-blocked
response — including a 5xx server error — is returned on the first attempt
producing it, with no retry. -/
theorem C3_retry_amended (fetch : Nat → FetchOutcome) (maxRetries : Nat) :
    (scrapeWithRetry fetch maxRetries).2 ≤ maxRetries ∧
    (∀ r, (scrapeWithRetry fetch maxRetries).1 = .ok r → isBlocked r = false) ∧
    ((∀ n, blockedOutcome (fetch n) = true) →
      scrapeWithRetry fetch maxRetries = (.exhausted, maxRetries)) ∧
    ((∀ n, fetch n = .clientError) → 0 < maxRetries →
      scrapeWithRetry fetch maxRetries = (.raised, maxRetries)) ∧
    (∀ r, fetch 0 = .success r → isBlocked r = false → 0 < maxRetries →
      scrapeWithRetry fetch maxRetries = (.ok r, 1)) :=
  ⟨scrapeGo_attempts_le fetch maxRetries maxRetries 0,
    fun r h => scrapeGo_ok_not_blocked fetch maxRetries maxRetries 0 r h,
    fun hbl => scrapeGo_all_blocked fetch maxRetries hbl maxRetries 0,
    fun hcl hpos =>
      scrapeGo_all_clientError fetch maxRetries hcl maxRetries 0 (by omega) hpos,
    fun r hf hnb hpos => scrapeGo_first_success fetch maxRetries r hf hnb hpos⟩

/-- Witness for C3 at concrete sources with the default maximum of 3
attempts: an always-blocked (403) source exhausts 3 attempts with no
response, an always-raising source re-raises on the final of 3 attempts,
and a 500-answering source gets its response back after exactly 1
attempt. -/
theorem C3_retry_witness :
    (scrapeWithRetry (fun _ => .success ⟨403, "p"⟩) 3).2 ≤ 3 ∧
    (∀ n : Nat, blockedOutcome ((fun _ : Nat => FetchOutcome.success ⟨403, "p"⟩) n) = true) ∧
    scrapeWithRetry (fun _ => .success ⟨403, "p"⟩) 3 = (.exhausted, 3) ∧
    (∀ n : Nat, (fun _ : Nat => FetchOutcome.clientError) n = FetchOutcome.clientError) ∧
    scrapeWithRetry (fun _ => .clientError) 3 = (.raised, 3) ∧
    isBlocked ⟨500, "p"⟩ = false ∧
    scrapeWithRetry (fun _ => .success ⟨500, "p"⟩) 3 = (.ok ⟨500, "p"⟩, 1) := by
  have hbl : ∀ n : Nat, blockedOutcome ((fun _ : Nat => FetchOutcome.success ⟨403, "p"⟩) n) = true :=
    fun n => rfl
  have hcl : ∀ n : Nat, (fun _ : Nat => FetchOutcome.clientError) n = FetchOutcome.clientError :=
    fun n => rfl
  have hnb : isBlocked (⟨500, "p"⟩ : ScrapeResponse) = false := rfl
  exact ⟨(C3_retry_amended (fun _ => .success ⟨403, "p"⟩) 3).1, hbl,
    (C3_retry_amended (fun _ => .success ⟨403, "p"⟩) 3).2.2.1 hbl,
    hcl,
    (C3_retry_amended (fun _ => .clientError) 3).2.2.2.1 hcl (by decide),
    hnb,
    (C3_retry_amended (fun _ => .success ⟨500, "p"⟩) 3).2.2.2.2 ⟨500, "p"⟩ rfl hnb
      (by decide)⟩

theorem discoverGo_zero_limit_diverges :
    ∀ fuel page,
      discoverGo (fun _ => .docs [⟨"t", "u", "e", none, none, "pdf"⟩])
        (some 0) fuel page = none := by
  intro fuel
  induction fuel with
  | zero => intro page; rfl
  | succ n ih =>
      intro page
      simp only [discoverGo]
      simp [limitHit, ih (page + 1)]

/-- Counterexample for C6: with `pageLimit = 0` supplied (so a pageLimit is
given, satisfying the claim's precondition) and a source whose every page
yields one document, the `while True` loop never breaks — Python's
`if max_pages and page > max_pages` is falsy for `max_pages = 0` — so
`discover` does not terminate: no amount of fuel completes the loop. -/
theorem C6_counterexample :
    (some 0 : Option Nat) ≠ none ∧
    ¬ ∃ fuel r,
        discoverGo (fun _ => .docs [⟨"t", "u", "e", none, none, "pdf"⟩])
          (some 0) fuel 1 = some r := by
  refine ⟨by decide, ?_⟩
  rintro ⟨fuel, r, h⟩
  rw [discoverGo_zero_limit_diverges] at h
  cases h

theorem discoverGo_run (pages : Nat → PageFetch) (maxPages : Option Nat) (stop : Nat)
    (hstopc : limitHit maxPages stop = true ∨ pages stop = .docs []) :
    ∀ fuel start, 1 ≤ start → start ≤ stop → stop - start < fuel →
      (∀ p, start ≤ p → p < stop →
        limitHit maxPages p = false ∧ ∃ l, pages p = .docs l ∧ l ≠ []) →
      discoverGo pages maxPages fuel start =
        some (if limitHit maxPages stop = true
                then List.range' start (stop - start)
                else List.range' start (stop - start + 1),
              (List.range' start (stop - start)).flatMap
                (fun p => docsOf (pages p))) := by
  intro fuel
  induction fuel with
  | zero => intro start h1 h2 h3 hmin; omega
  | succ n ih =>
      intro start h1 h2 h3 hmin
      by_cases hs : start = stop
      · subst hs
        simp only [Nat.sub_self, List.range'] at *
        cases hl2 : limitHit maxPages start with
        | true => simp [discoverGo, hl2]
        | false =>
            have he : pages start = .docs [] := by
              rcases hstopc with hl | he
              · rw [hl2] at hl; cases hl
              · exact he
            simp [discoverGo, hl2, he, docsOf]
      · have hlt : start < stop := lt_of_le_of_ne h2 hs
        obtain ⟨hlim, l, hl, hlne⟩ := hmin start le_rfl hlt
        have ihr := ih (start + 1) (by omega) (by omega) (by omega)
          (fun p hp1 hp2 => hmin p (by omega) hp2)
        have hk : stop - start = (stop - (start + 1)) + 1 := by omega
        simp only [discoverGo, hlim, hl, Bool.false_eq_true, if_false, hlne, ihr]
        cases hl3 : limitHit maxPages stop with
        | true =>
            simp only [hl3, if_true]
            rw [hk, List.range'_succ]
            simp [hl, docsOf]
        | false =>
            simp only [hl3, Bool.false_eq_true, if_false]
            rw [show stop - start + 1 = (stop - (start + 1) + 1) + 1 from by omega,
              List.range'_succ, hk, List.range'_succ]
            simp [hl, docsOf, List.range'_succ]

/-- Claim C6 as amended: provided page fetches do not raise, `discover`
visits pages in order 1, 2, 3, … and stops exactly at the first page where
a positive `pageLimit` is exceeded or where the fetched page yields zero
items, returning the concatenation of the earlier (nonempty) pages'
documents; the termination precondition must require the given `pageLimit`
to be positive, because `max_pages = 0` is falsy in Python and disables the
limit. -/
theorem C6_discover_amended (pages : Nat → PageFetch) (maxPages : Option Nat)
    (herr : ∀ n, pages n ≠ .raiseErr)
    (hstop : (∃ m, maxPages = some m ∧ 0 < m) ∨ (∃ n, 1 ≤ n ∧ pages n = .docs [])) :
    ∃ stop, 1 ≤ stop ∧
      (∀ p, 1 ≤ p → p < stop → limitHit maxPages p = false ∧ pages p ≠ .docs []) ∧
      (limitHit maxPages stop = true ∨ pages stop = .docs []) ∧
      ∀ fuel, stop ≤ fuel →
        discoverGo pages maxPages fuel 1 =
          some (if limitHit maxPages stop = true
                  then List.range' 1 (stop - 1)
                  else List.range' 1 stop,
                (List.range' 1 (stop - 1)).flatMap (fun p => docsOf (pages p))) := by
  have hex : ∃ k, limitHit maxPages (k + 1) = true ∨ pages (k + 1) = .docs [] := by
    rcases hstop with ⟨m, hm, hmpos⟩ | ⟨nn, hn1, hne⟩
    · refine ⟨m, Or.inl ?_⟩
      subst hm
      simp [limitHit]
      omega
    · obtain ⟨k, hk⟩ : ∃ k, nn = k + 1 := ⟨nn - 1, by omega⟩
      exact ⟨k, Or.inr (hk ▸ hne)⟩
  classical
  let stop := Nat.find hex + 1
  have hstopc : limitHit maxPages stop = true ∨ pages stop = .docs [] :=
    Nat.find_spec hex
  have hminc : ∀ p, 1 ≤ p → p < stop →
      limitHit maxPages p = false ∧ pages p ≠ .docs [] := by
    intro p hp1 hp2
    have hnot := Nat.find_min hex (m := p - 1) (by omega)
    push_neg at hnot
    have hp : p - 1 + 1 = p := by omega
    rw [hp] at hnot
    refine ⟨?_, hnot.2⟩
    cases hcase : limitHit maxPages p with
    | false => rfl
    | true => exact absurd hcase hnot.1
  refine ⟨stop, by omega, hminc, hstopc, ?_⟩
  intro fuel hfuel
  have := discoverGo_run pages maxPages stop hstopc fuel 1 le_rfl (by omega) (by omega)
    (fun p hp1 hp2 => by
      obtain ⟨ha, hb⟩ := hminc p hp1 hp2
      refine ⟨ha, ?_⟩
      cases hc : pages p with
      | raiseErr => exact absurd hc (herr p)
      | docs l =>
          refine ⟨l, rfl, ?_⟩
          intro hleq
          exact hb (by rw [hc, hleq]))
  rw [show stop - 1 + 1 = stop from by omega] at this
  exact this

/-- Witness for C6 at a concrete source: pages 1 and 2 hold one document
each, page 3 is empty and no page raises, so discovery stops at the first
empty page. -/
theorem C6_discover_witness :
    (∀ n : Nat,
      (fun p : Nat => if p ≤ 2 then PageFetch.docs [⟨"t", "u", "e", none, none, "pdf"⟩]
        else PageFetch.docs []) n ≠ PageFetch.raiseErr) ∧
    (∃ n, 1 ≤ n ∧
      (fun p : Nat => if p ≤ 2 then PageFetch.docs [⟨"t", "u", "e", none, none, "pdf"⟩]
        else PageFetch.docs []) n = PageFetch.docs []) ∧
    ∃ stop, 1 ≤ stop ∧
      (∀ p, 1 ≤ p → p < stop → limitHit none p = false ∧
        (fun p : Nat => if p ≤ 2 then PageFetch.docs [⟨"t", "u", "e", none, none, "pdf"⟩]
          else PageFetch.docs []) p ≠ PageFetch.docs []) ∧
      (limitHit none stop = true ∨
        (fun p : Nat => if p ≤ 2 then PageFetch.docs [⟨"t", "u", "e", none, none, "pdf"⟩]
          else PageFetch.docs []) stop = PageFetch.docs []) ∧
      ∀ fuel, stop ≤ fuel →
        discoverGo
            (fun p : Nat => if p ≤ 2 then PageFetch.docs [⟨"t", "u", "e", none, none, "pdf"⟩]
              else PageFetch.docs [])
            none fuel 1 =
          some (if limitHit none stop = true
                  then List.range' 1 (stop - 1)
                  else List.range' 1 stop,
                (List.range' 1 (stop - 1)).flatMap (fun p =>
                  docsOf ((fun p : Nat =>
                    if p ≤ 2 then PageFetch.docs [⟨"t", "u", "e", none, none, "pdf"⟩]
                    else PageFetch.docs []) p))) := by
  have herr : ∀ n : Nat,
      (fun p : Nat => if p ≤ 2 then PageFetch.docs [⟨"t", "u", "e", none, none, "pdf"⟩]
        else PageFetch.docs []) n ≠ PageFetch.raiseErr := by
    intro n
    dsimp only
    split <;> simp
  have hempty : ∃ n, 1 ≤ n ∧
      (fun p : Nat => if p ≤ 2 then PageFetch.docs [⟨"t", "u", "e", none, none, "pdf"⟩]
        else PageFetch.docs []) n = PageFetch.docs [] :=
    ⟨3, by omega, by simp⟩
  exact ⟨herr, hempty,
    C6_discover_amended _ none herr (Or.inr hempty)⟩

theorem mem_intRangeAux (n : Nat) : ∀ lo x : Int,
    x ∈ intRangeAux lo n ↔ lo ≤ x ∧ x < lo + n := by
  induction n with
  | zero =>
      intro lo x
      simp only [intRangeAux, List.not_mem_nil, false_iff, Nat.cast_zero]
      omega
  | succ m ih =>
      intro lo x
      simp only [intRangeAux, List.mem_cons, ih (lo + 1), Nat.cast_succ]
      omega

theorem pairwise_intRangeAux (n : Nat) : ∀ lo : Int,
    List.Pairwise (· < ·) (intRangeAux lo n) := by
  induction n with
  | zero => intro lo; simp [intRangeAux]
  | succ m ih =>
      intro lo
      simp only [intRangeAux]
      refine List.pairwise_cons.mpr ⟨?_, ih (lo + 1)⟩
      intro x hx
      have := (mem_intRangeAux m (lo + 1) x).mp hx
      omega

theorem intRangeAux_getLast (n : Nat) : ∀ lo : Int, 0 < n →
    (intRangeAux lo n).getLast? = some (lo + n - 1) := by
  induction n with
  | zero => intro lo h; omega
  | succ m ih =>
      intro lo _
      cases m with
      | zero =>
          show ([lo] : List Int).getLast? = some (lo + (1 : Nat) - 1)
          simp
      | succ k =>
          show (lo :: intRangeAux (lo + 1) (k + 1)).getLast? = some (lo + ((k : Int) + 1 + 1) - 1)
          have h2 := ih (lo + 1) (by omega)
          rw [show intRangeAux (lo + 1) (k + 1) = (lo + 1) :: intRangeAux (lo + 1 + 1) k from rfl,
            List.getLast?_cons_cons,
            show ((lo + 1) :: intRangeAux (lo + 1 + 1) k) = intRangeAux (lo + 1) (k + 1) from rfl,
            h2]
          congr 1
          push_cast
          ring

theorem mem_pageLoopRange (lo hi x : Int) :
    x ∈ pageLoopRange lo hi ↔ lo ≤ x ∧ x ≤ hi := by
  rw [pageLoopRange, mem_intRangeAux]
  omega

theorem pairwise_pageLoopRange (lo hi : Int) :
    List.Pairwise (· < ·) (pageLoopRange lo hi) :=
  pairwise_intRangeAux _ lo

theorem pageLoopRange_getLast (lo hi : Int) (h : lo ≤ hi) :
    (pageLoopRange lo hi).getLast? = some hi := by
  rw [pageLoopRange, intRangeAux_getLast _ lo (by omega)]
  congr 1
  omega

theorem pageLoopRange_cons (lo hi : Int) (h : lo ≤ hi) :
    pageLoopRange lo hi = lo :: pageLoopRange (lo + 1) hi := by
  rw [pageLoopRange, pageLoopRange,
    show (hi + 1 - lo).toNat = (hi + 1 - (lo + 1)).toNat + 1 from by omega,
    intRangeAux]

@[simp] theorem numsOf_nil : numsOf [] = [] := rfl

@[simp] theorem numsOf_cons_num (n : Int) (l : List PageEntry) :
    numsOf (PageEntry.num n :: l) = n :: numsOf l := rfl

@[simp] theorem numsOf_cons_dots (l : List PageEntry) :
    numsOf (PageEntry.dots :: l) = numsOf l := rfl

@[simp] theorem numsOf_append (l1 l2 : List PageEntry) :
    numsOf (l1 ++ l2) = numsOf l1 ++ numsOf l2 :=
  List.filterMap_append l1 l2 _

@[simp] theorem numsOf_map_num (ns : List Int) :
    numsOf (ns.map PageEntry.num) = ns := by
  induction ns with
  | nil => rfl
  | cons a tail ih => simp [ih]

theorem dotsSeparated_map_num (ns : List Int) :
    dotsSeparated (ns.map PageEntry.num) = true := by
  induction ns with
  | nil => simp [dotsSeparated]
  | cons a tail ih =>
      cases tail with
      | nil => simp [dotsSeparated]
      | cons b rest =>
          simp only [List.map_cons, dotsSeparated]
          simpa using ih

theorem dotsSeparated_tail_dots (ns : List Int) : ∀ a b : Int,
    ns.getLast? = some a → a + 2 ≤ b →
    dotsSeparated (ns.map PageEntry.num ++ [PageEntry.dots, PageEntry.num b]) = true := by
  induction ns with
  | nil => intro a b h hab; cases h
  | cons x tail ih =>
      intro a b hlast hab
      cases tail with
      | nil =>
          simp only [List.getLast?_singleton, Option.some.injEq] at hlast
          subst hlast
          simp only [List.map_cons, List.map_nil, List.nil_append, List.cons_append,
            dotsSeparated]
          simp [decide_eq_true hab]
      | cons y rest =>
          have hlast2 : (y :: rest).getLast? = some a := by
            rw [← hlast, List.getLast?_cons_cons]
          simp only [List.map_cons, List.cons_append, dotsSeparated]
          simpa using ih a b hlast2 hab

theorem getPageNumbers_eq (c t : Int) :
    getPageNumbers c t =
      PageEntry.num 1 ::
        ((if 2 < c - 2 then [PageEntry.dots] else []) ++
          (pageLoopRange (max 2 (c - 2)) (min (t - 1) (c + 2))).map PageEntry.num ++
          (if c + 2 < t - 1 then [PageEntry.dots] else []) ++
          (if 1 < t then [PageEntry.num t] else [])) := by
  simp only [getPageNumbers]
  split_ifs <;> simp

theorem pairwise_one_range_last (lo hi t : Int) (h2lo : 2 ≤ lo)
    (hhit : hi < t) (h1t : 1 < t) :
    List.Pairwise (· < ·) ((1 : Int) :: (pageLoopRange lo hi ++ [t])) := by
  refine List.pairwise_cons.mpr ⟨?_, ?_⟩
  · intro x hx
    rcases List.mem_append.mp hx with hx | hx
    · have := (mem_pageLoopRange lo hi x).mp hx; omega
    · simp only [List.mem_singleton] at hx; omega
  · refine List.pairwise_append.mpr
      ⟨pairwise_pageLoopRange lo hi, List.pairwise_singleton _ _, ?_⟩
    intro x hx y hy
    simp only [List.mem_singleton] at hy
    subst hy
    have := (mem_pageLoopRange lo hi x).mp hx
    omega

theorem pairwise_one_range (lo hi : Int) (h2lo : 2 ≤ lo) :
    List.Pairwise (· < ·) ((1 : Int) :: pageLoopRange lo hi) := by
  refine List.pairwise_cons.mpr ⟨?_, pairwise_pageLoopRange lo hi⟩
  intro x hx
  have := (mem_pageLoopRange lo hi x).mp hx
  omega

theorem bounds_one_range_last (lo hi t : Int) (h2lo : 2 ≤ lo) (hhit : hi ≤ t - 1)
    (h1t : 1 ≤ t) :
    ∀ n ∈ (1 : Int) :: (pageLoopRange lo hi ++ [t]), 1 ≤ n ∧ n ≤ t := by
  intro n hn
  rcases List.mem_cons.mp hn with rfl | hn
  · omega
  rcases List.mem_append.mp hn with hn | hn
  · have hm := (mem_pageLoopRange lo hi n).mp hn
    omega
  · simp only [List.mem_singleton] at hn; omega

theorem bounds_one_range (lo hi t : Int) (h2lo : 2 ≤ lo) (hhit : hi ≤ t - 1)
    (h1t : 1 ≤ t) :
    ∀ n ∈ (1 : Int) :: pageLoopRange lo hi, 1 ≤ n ∧ n ≤ t := by
  intro n hn
  rcases List.mem_cons.mp hn with rfl | hn
  · omega
  · have hm := (mem_pageLoopRange lo hi n).mp hn
    omega

/-- Claim C10: for `1 ≤ currentPage ≤ totalPages`, `getPageNumbers` returns
a strip whose numeric entries are pairwise distinct and strictly increasing
within `[1, totalPages]`, whose first entry is page 1, whose last entry is
`totalPages` whenever `totalPages > 1`, and whose `'...'` entries appear
only between non-adjacent page numbers. -/
theorem C10_pagination (c t : Int) (h1 : 1 ≤ c) (h2 : c ≤ t) :
    List.Pairwise (· < ·) (numsOf (getPageNumbers c t)) ∧
    (∀ n ∈ numsOf (getPageNumbers c t), 1 ≤ n ∧ n ≤ t) ∧
    (getPageNumbers c t).head? = some (.num 1) ∧
    (1 < t → (getPageNumbers c t).getLast? = some (.num t)) ∧
    dotsSeparated (getPageNumbers c t) = true := by
  have h2lo : (2 : Int) ≤ max 2 (c - 2) := le_max_left _ _
  have hhit : min (t - 1) (c + 2) ≤ t - 1 := min_le_left _ _
  by_cases hf : 2 < c - 2 <;> by_cases hb : c + 2 < t - 1
  · -- front dots and back dots
    have hloeq : max 2 (c - 2) = c - 2 := max_eq_right (by omega)
    have hhieq : min (t - 1) (c + 2) = c + 2 := min_eq_right (by omega)
    have ht : 1 < t := by omega
    have hle : max 2 (c - 2) ≤ min (t - 1) (c + 2) := by omega
    have hsh : getPageNumbers c t =
        PageEntry.num 1 :: PageEntry.dots ::
          ((pageLoopRange (max 2 (c - 2)) (min (t - 1) (c + 2))).map PageEntry.num ++
            [PageEntry.dots, PageEntry.num t]) := by
      rw [getPageNumbers_eq]
      simp [hf, hb, ht]
    rw [hsh]
    refine ⟨?_, ?_, rfl, fun _ => ?_, ?_⟩
    · simp only [numsOf_cons_num, numsOf_cons_dots, numsOf_append, numsOf_map_num,
        numsOf_nil]
      exact pairwise_one_range_last _ _ t h2lo (by omega) ht
    · simp only [numsOf_cons_num, numsOf_cons_dots, numsOf_append, numsOf_map_num,
        numsOf_nil]
      exact bounds_one_range_last _ _ t h2lo (by omega) (by omega)
    · rw [show (PageEntry.num 1 :: PageEntry.dots ::
            ((pageLoopRange (max 2 (c - 2)) (min (t - 1) (c + 2))).map PageEntry.num ++
              [PageEntry.dots, PageEntry.num t]) : List PageEntry) =
          (PageEntry.num 1 :: PageEntry.dots ::
            ((pageLoopRange (max 2 (c - 2)) (min (t - 1) (c + 2))).map PageEntry.num ++
              [PageEntry.dots])) ++ [PageEntry.num t] from by simp,
        List.getLast?_concat]
    · rw [pageLoopRange_cons _ _ hle, List.map_cons, List.cons_append]
      simp only [dotsSeparated]
      rw [decide_eq_true (show (1 : Int) + 2 ≤ max 2 (c - 2) from by omega)]
      simp only [Bool.true_and]
      have h5 := dotsSeparated_tail_dots
        (pageLoopRange (max 2 (c - 2)) (min (t - 1) (c + 2)))
        (min (t - 1) (c + 2)) t (pageLoopRange_getLast _ _ hle) (by omega)
      rw [pageLoopRange_cons _ _ hle, List.map_cons, List.cons_append] at h5
      exact h5
  · -- front dots only
    have hloeq : max 2 (c - 2) = c - 2 := max_eq_right (by omega)
    have hhieq : min (t - 1) (c + 2) = t - 1 := min_eq_left (by omega)
    have ht : 1 < t := by omega
    have hle : max 2 (c - 2) ≤ min (t - 1) (c + 2) := by omega
    have hsh : getPageNumbers c t =
        PageEntry.num 1 :: PageEntry.dots ::
          ((pageLoopRange (max 2 (c - 2)) (min (t - 1) (c + 2))).map PageEntry.num ++
            [PageEntry.num t]) := by
      rw [getPageNumbers_eq]
      simp [hf, hb, ht]
    rw [hsh]
    refine ⟨?_, ?_, rfl, fun _ => ?_, ?_⟩
    · simp only [numsOf_cons_num, numsOf_cons_dots, numsOf_append, numsOf_map_num,
        numsOf_nil]
      exact pairwise_one_range_last _ _ t h2lo (by omega) ht
    · simp only [numsOf_cons_num, numsOf_cons_dots, numsOf_append, numsOf_map_num,
        numsOf_nil]
      exact bounds_one_range_last _ _ t h2lo (by omega) (by omega)
    · rw [show (PageEntry.num 1 :: PageEntry.dots ::
            ((pageLoopRange (max 2 (c - 2)) (min (t - 1) (c + 2))).map PageEntry.num ++
              [PageEntry.num t]) : List PageEntry) =
          (PageEntry.num 1 :: PageEntry.dots ::
            (pageLoopRange (max 2 (c - 2)) (min (t - 1) (c + 2))).map PageEntry.num) ++
            [PageEntry.num t] from by simp,
        List.getLast?_concat]
    · rw [pageLoopRange_cons _ _ hle, List.map_cons, List.cons_append]
      simp only [dotsSeparated]
      rw [decide_eq_true (show (1 : Int) + 2 ≤ max 2 (c - 2) from by omega)]
      simp only [Bool.true_and]
      have h5 := dotsSeparated_map_num
        (pageLoopRange (max 2 (c - 2)) (min (t - 1) (c + 2)) ++ [t])
      rw [List.map_append, pageLoopRange_cons _ _ hle, List.map_cons, List.map_cons,
        List.map_nil, List.cons_append] at h5
      exact h5
  · -- back dots only
    have hloeq : max 2 (c - 2) = 2 := max_eq_left (by omega)
    have hhieq : min (t - 1) (c + 2) = c + 2 := min_eq_right (by omega)
    have ht : 1 < t := by omega
    have hle : max 2 (c - 2) ≤ min (t - 1) (c + 2) := by omega
    have hsh : getPageNumbers c t =
        PageEntry.num 1 ::
          ((pageLoopRange (max 2 (c - 2)) (min (t - 1) (c + 2))).map PageEntry.num ++
            [PageEntry.dots, PageEntry.num t]) := by
      rw [getPageNumbers_eq]
      simp [hf, hb, ht]
    rw [hsh]
    refine ⟨?_, ?_, rfl, fun _ => ?_, ?_⟩
    · simp only [numsOf_cons_num, numsOf_cons_dots, numsOf_append, numsOf_map_num,
        numsOf_nil]
      exact pairwise_one_range_last _ _ t h2lo (by omega) ht
    · simp only [numsOf_cons_num, numsOf_cons_dots, numsOf_append, numsOf_map_num,
        numsOf_nil]
      exact bounds_one_range_last _ _ t h2lo (by omega) (by omega)
    · rw [show (PageEntry.num 1 ::
            ((pageLoopRange (max 2 (c - 2)) (min (t - 1) (c + 2))).map PageEntry.num ++
              [PageEntry.dots, PageEntry.num t]) : List PageEntry) =
          (PageEntry.num 1 ::
            ((pageLoopRange (max 2 (c - 2)) (min (t - 1) (c + 2))).map PageEntry.num ++
              [PageEntry.dots])) ++ [PageEntry.num t] from by simp,
        List.getLast?_concat]
    · have hlast : ((1 : Int) :: pageLoopRange (max 2 (c - 2)) (min (t - 1) (c + 2))).getLast? =
          some (min (t - 1) (c + 2)) := by
        rw [pageLoopRange_cons _ _ hle, List.getLast?_cons_cons,
          ← pageLoopRange_cons _ _ hle, pageLoopRange_getLast _ _ hle]
      have h5 := dotsSeparated_tail_dots
        ((1 : Int) :: pageLoopRange (max 2 (c - 2)) (min (t - 1) (c + 2)))
        (min (t - 1) (c + 2)) t hlast (by omega)
      simp only [List.map_cons, List.cons_append] at h5
      exact h5
  · -- no dots
    by_cases ht : 1 < t
    · have hsh : getPageNumbers c t =
          PageEntry.num 1 ::
            ((pageLoopRange (max 2 (c - 2)) (min (t - 1) (c + 2))).map PageEntry.num ++
              [PageEntry.num t]) := by
        rw [getPageNumbers_eq]
        simp [hf, hb, ht]
      rw [hsh]
      refine ⟨?_, ?_, rfl, fun _ => ?_, ?_⟩
      · simp only [numsOf_cons_num, numsOf_cons_dots, numsOf_append, numsOf_map_num,
          numsOf_nil]
        exact pairwise_one_range_last _ _ t h2lo (by omega) ht
      · simp only [numsOf_cons_num, numsOf_cons_dots, numsOf_append, numsOf_map_num,
          numsOf_nil]
        exact bounds_one_range_last _ _ t h2lo (by omega) (by omega)
      · rw [show (PageEntry.num 1 ::
              ((pageLoopRange (max 2 (c - 2)) (min (t - 1) (c + 2))).map PageEntry.num ++
                [PageEntry.num t]) : List PageEntry) =
            (PageEntry.num 1 ::
              (pageLoopRange (max 2 (c - 2)) (min (t - 1) (c + 2))).map PageEntry.num) ++
              [PageEntry.num t] from by simp,
          List.getLast?_concat]
      · have h5 := dotsSeparated_map_num
          ((1 : Int) :: (pageLoopRange (max 2 (c - 2)) (min (t - 1) (c + 2)) ++ [t]))
        simp only [List.map_cons, List.map_append, List.map_nil] at h5
        exact h5
    · have hsh : getPageNumbers c t =
          PageEntry.num 1 ::
            (pageLoopRange (max 2 (c - 2)) (min (t - 1) (c + 2))).map PageEntry.num := by
        rw [getPageNumbers_eq]
        simp [hf, hb, ht]
      rw [hsh]
      refine ⟨?_, ?_, rfl, fun hcon => absurd hcon ht, ?_⟩
      · simp only [numsOf_cons_num, numsOf_map_num]
        exact pairwise_one_range _ _ h2lo
      · simp only [numsOf_cons_num, numsOf_map_num]
        exact bounds_one_range _ _ t h2lo (by omega) (by omega)
      · have h5 := dotsSeparated_map_num
          ((1 : Int) :: pageLoopRange (max 2 (c - 2)) (min (t - 1) (c + 2)))
        simp only [List.map_cons] at h5
        exact h5

/-- Witness for C10 at `currentPage = 7`, `totalPages = 20`. -/
theorem C10_pagination_witness :
    List.Pairwise (· < ·) (numsOf (getPageNumbers 7 20)) ∧
    (∀ n ∈ numsOf (getPageNumbers 7 20), 1 ≤ n ∧ n ≤ 20) ∧
    (getPageNumbers 7 20).head? = some (.num 1) ∧
    (1 < (20 : Int) → (getPageNumbers 7 20).getLast? = some (.num 20)) ∧
    dotsSeparated (getPageNumbers 7 20) = true :=
  C10_pagination 7 20 (by decide) (by decide)

end GovChat
